import Mathlib

/-!
Verification of the data-ingestion spec of the
`autonomous-generative-trading-strategies` repository.

Part 1 embeds `src/trading_config.py` (`TradingConfig` and its
`__post_init__`).  Part 2 models the ingestion pipeline
(Validator/Normalizer, StorageWriter, IngestionOrchestrator) described in
the spec; the repository's `data_ingestion.py` is only a 22-line fragment
(a class docstring), so those components are modelled from the spec's
words, as marked in each doc comment.
-/

namespace TradingRepo

/-! ## Part 1: embedding of src/trading_config.py -/

/-- An OS environment: a partial map from variable names to values,
embedding `os.environ`. -/
def Env : Type := String → Option String

/-- Embeds Python `os.getenv(key, dflt)`: the variable's value when set,
otherwise the default. -/
def getenv (env : Env) (key dflt : String) : String :=
  (env key).getD dflt

/-- Embeds Python `str.split(",")` on the underlying character list:
splitting the empty string yields `[[]]`, and every comma introduces a
(possibly empty) new field. -/
def splitComma : List Char → List (List Char)
  | [] => [[]]
  | c :: cs =>
    if c = ',' then [] :: splitComma cs
    else
      match splitComma cs with
      | [] => [[c]]
      | s :: ss => (c :: s) :: ss

/-- Embeds Python `str.strip()`: drop whitespace from both ends. -/
def pyStrip (l : List Char) : List Char :=
  ((l.dropWhile Char.isWhitespace).reverse.dropWhile Char.isWhitespace).reverse

/-- `[s.strip() for s in symbols_str.split(",")]` from
`TradingConfig.__post_init__` (src/trading_config.py line 75). -/
def pySplitStrip (s : String) : List String :=
  (splitComma s.data).map (fun l => String.mk (pyStrip l))

/-- Embeds Python `str.lower()` (src/trading_config.py line 77). -/
def pyLower (s : String) : String :=
  String.mk (s.data.map Char.toLower)

/-- The fields of the `TradingConfig` dataclass
(src/trading_config.py lines 43-69).  Python ints become `Int`, floats
become `Rat` (all literal values in the source are exact decimals),
strings become `String`. -/
structure TradingConfig where
  data_interval : String
  historical_days : Int
  symbols : List String
  strategy_generation_batch_size : Int
  max_strategies_per_generation : Int
  model_update_frequency_hours : Int
  backtest_initial_capital : Rat
  backtest_commission_rate : Rat
  backtest_slippage_rate : Rat
  max_position_size_pct : Rat
  max_daily_loss_pct : Rat
  stop_loss_pct : Rat
  paper_trading : Bool
  min_order_size_usd : Rat
  max_open_positions : Int
deriving DecidableEq, Repr

/-- Embeds construction of `TradingConfig` followed by its
`__post_init__` (src/trading_config.py lines 43-77).  `symbols0`,
`data_interval0`, `historical_days0` and `paper_trading0` are the
dataclass constructor arguments the claims vary; the remaining fields
always take their dataclass defaults.  `__post_init__` fills `symbols`
from `TRADING_SYMBOLS` only when the constructor argument is `None`, and
unconditionally overwrites `paper_trading` from `PAPER_TRADING`.
Construction is total: nothing is validated and no error is possible. -/
def mkTradingConfig (env : Env) (symbols0 : Option (List String))
    (data_interval0 : String) (historical_days0 : Int)
    (_paper_trading0 : Bool) : TradingConfig :=
  let symbols :=
    match symbols0 with
    | none => pySplitStrip (getenv env "TRADING_SYMBOLS" "BTC/USDT,ETH/USDT,ADA/USDT")
    | some s => s
  { data_interval := data_interval0
    historical_days := historical_days0
    symbols := symbols
    strategy_generation_batch_size := 10
    max_strategies_per_generation := 50
    model_update_frequency_hours := 24
    backtest_initial_capital := 10000
    backtest_commission_rate := 1/1000
    backtest_slippage_rate := 5/10000
    max_position_size_pct := 1/10
    max_daily_loss_pct := 2/100
    stop_loss_pct := 5/100
    paper_trading := pyLower (getenv env "PAPER_TRADING" "True") == "true"
    min_order_size_usd := 10
    max_open_positions := 5
    }

/-- Python default construction `TradingConfig()` (src/trading_config.py
line 121): all constructor arguments at their dataclass defaults, so
`symbols` starts as `None`. -/
def defaultTradingConfig (env : Env) : TradingConfig :=
  mkTradingConfig env none "1h" 365 true

/-- The environment in which no relevant variable is set. -/
def emptyEnv : Env := fun _ => none

/-- `splitComma` never returns the empty list of fields. -/
theorem splitComma_ne_nil (l : List Char) : splitComma l ≠ [] := by
  induction l with
  | nil => simp [splitComma]
  | cons c cs ih =>
    simp only [splitComma]
    split
    · simp
    · cases h : splitComma cs <;> simp

/-- `pySplitStrip` never returns the empty list. -/
theorem pySplitStrip_ne_nil (s : String) : pySplitStrip s ≠ [] := by
  simpa [pySplitStrip] using splitComma_ne_nil s.data

/-- An environment that sets exactly `PAPER_TRADING=1`. -/
def envPaperOne : Env := fun k => if k = "PAPER_TRADING" then some "1" else none

/-- An environment that sets exactly `TRADING_SYMBOLS=` (the empty string). -/
def envEmptySymbols : Env := fun k => if k = "TRADING_SYMBOLS" then some "" else none

/-- C1 (counterexample): `TradingConfig` construction does NOT fail on an
unknown interval, an empty symbol list, or a non-positive
historical-days value: at the concrete input
`data_interval="bogus"`, `symbols=[]`, `historical_days=0` the
constructor returns a usable configuration carrying exactly those
invalid values, so no rejection happens before fetching. -/
theorem C1_no_validation_counterexample :
    (mkTradingConfig emptyEnv (some []) "bogus" 0 true).data_interval = "bogus" ∧
    (mkTradingConfig emptyEnv (some []) "bogus" 0 true).symbols = [] ∧
    (mkTradingConfig emptyEnv (some []) "bogus" 0 true).historical_days = 0 :=
  ⟨rfl, rfl, rfl⟩

/-- C1 (amended): `TradingConfig` construction performs no validation at
all: for every environment and every interval string, symbol list and
historical-days value — including unknown intervals, the empty list and
non-positive day counts — construction succeeds and the resulting
configuration carries those values unchanged. -/
theorem C1_construction_never_rejects (env : Env) (syms : List String)
    (di : String) (hd : Int) (pt : Bool) :
    (mkTradingConfig env (some syms) di hd pt).data_interval = di ∧
    (mkTradingConfig env (some syms) di hd pt).symbols = syms ∧
    (mkTradingConfig env (some syms) di hd pt).historical_days = hd :=
  ⟨rfl, rfl, rfl⟩

/-- C9: after default construction, `symbols` is the comma-split,
whitespace-stripped list from `TRADING_SYMBOLS`; it is never empty; when
the variable is unset it is the three default symbols; when the variable
is set to the empty string it is the one-element list `[""]`. -/
theorem C9_symbols_from_env (env : Env) :
    (defaultTradingConfig env).symbols
        = pySplitStrip (getenv env "TRADING_SYMBOLS" "BTC/USDT,ETH/USDT,ADA/USDT") ∧
    (defaultTradingConfig env).symbols ≠ [] ∧
    (env "TRADING_SYMBOLS" = none →
        (defaultTradingConfig env).symbols = ["BTC/USDT", "ETH/USDT", "ADA/USDT"]) ∧
    (env "TRADING_SYMBOLS" = some "" →
        (defaultTradingConfig env).symbols = [""]) := by
  refine ⟨rfl, pySplitStrip_ne_nil _, fun h => ?_, fun h => ?_⟩
  · show pySplitStrip (getenv env "TRADING_SYMBOLS" "BTC/USDT,ETH/USDT,ADA/USDT") = _
    rw [getenv, h]
    rfl
  · show pySplitStrip (getenv env "TRADING_SYMBOLS" "BTC/USDT,ETH/USDT,ADA/USDT") = _
    rw [getenv, h]
    rfl

/-- C9 (witness): the unset-environment and empty-string cases of
`C9_symbols_from_env` evaluated concretely. -/
theorem C9_symbols_from_env_witness :
    (defaultTradingConfig emptyEnv).symbols = ["BTC/USDT", "ETH/USDT", "ADA/USDT"] ∧
    (defaultTradingConfig envEmptySymbols).symbols = [""] :=
  ⟨(C9_symbols_from_env emptyEnv).2.2.1 rfl,
   (C9_symbols_from_env envEmptySymbols).2.2.2 rfl⟩

/-- C10: after construction, `paper_trading` is `true` iff the value of
`PAPER_TRADING` (defaulting to `"True"` when unset) lowercases to
exactly `"true"`; an unset variable yields `true`, while `"1"`, `"yes"`
and `"on"` silently yield `false` (live-trading mode) with no error. -/
theorem C10_paper_trading_lowercase (env : Env) (pt0 : Bool) :
    ((mkTradingConfig env none "1h" 365 pt0).paper_trading = true ↔
        pyLower (getenv env "PAPER_TRADING" "True") = "true") ∧
    (env "PAPER_TRADING" = none →
        (mkTradingConfig env none "1h" 365 pt0).paper_trading = true) ∧
    (env "PAPER_TRADING" = some "1" →
        (mkTradingConfig env none "1h" 365 pt0).paper_trading = false) ∧
    (env "PAPER_TRADING" = some "yes" →
        (mkTradingConfig env none "1h" 365 pt0).paper_trading = false) ∧
    (env "PAPER_TRADING" = some "on" →
        (mkTradingConfig env none "1h" 365 pt0).paper_trading = false) := by
  refine ⟨?_, fun h => ?_, fun h => ?_, fun h => ?_, fun h => ?_⟩
  · show (pyLower (getenv env "PAPER_TRADING" "True") == "true") = true ↔ _
    exact beq_iff_eq
  all_goals
    show (pyLower (getenv env "PAPER_TRADING" "True") == "true") = _
  all_goals rw [getenv, h]
  all_goals rfl

/-- C10 (witness): the unset case and the `PAPER_TRADING=1` case of
`C10_paper_trading_lowercase` evaluated concretely. -/
theorem C10_paper_trading_lowercase_witness :
    (mkTradingConfig emptyEnv none "1h" 365 true).paper_trading = true ∧
    (mkTradingConfig envPaperOne none "1h" 365 true).paper_trading = false :=
  ⟨(C10_paper_trading_lowercase emptyEnv true).2.1 rfl,
   (C10_paper_trading_lowercase envPaperOne true).2.2.1 rfl⟩

/-! ## Part 2: the ingestion pipeline, modelled from the spec

The repository's `data_ingestion.py` is a fragment that ends inside the
`MarketDataIngestor` class docstring, so the Validator/Normalizer,
StorageWriter and IngestionOrchestrator are modelled from the spec. -/

/-- Modelled from the spec: a Bar is one OHLCV record (spec section 3).
The Python `open` field is `opn` (`open` is a Lean keyword).  Prices and
volume are exact decimals, so `Rat`; the timestamp is epoch-based `Nat`;
`seq` is the fetch-sequence number used by deduplication. -/
structure Bar where
  exchange : String
  symbol : String
  interval : String
  timestamp : Nat
  opn : Rat
  high : Rat
  low : Rat
  close : Rat
  volume : Rat
  seq : Nat
deriving DecidableEq, Repr

/-- Modelled from the spec: a SeriesKey is (exchange, symbol, interval)
(spec section 3). -/
structure SeriesKey where
  exchange : String
  symbol : String
  interval : String
deriving DecidableEq, Repr

/-- Modelled from the spec: the OHLC invariant checked at step 3 of the
Validator (spec section 4.4): low ≤ open, close ≤ high; high ≥ low;
volume ≥ 0. -/
def validBar (b : Bar) : Bool :=
  decide (b.low ≤ b.opn) && decide (b.low ≤ b.close) &&
  decide (b.opn ≤ b.high) && decide (b.close ≤ b.high) &&
  decide (b.low ≤ b.high) && decide (0 ≤ b.volume)

/-- Modelled from the spec: timestamp alignment to the interval boundary,
checked at step 2 of the Validator (spec sections 3 and 4.4): the
timestamp is an exact multiple of the interval duration `i`. -/
def alignedBar (i : Nat) (b : Bar) : Bool :=
  b.timestamp % i == 0

/-- Modelled from the spec: fold step of deduplication (spec section 4.4
step 1).  A bar whose timestamp is new is appended; a bar whose
timestamp is already present replaces the present bar exactly when its
fetch-sequence number is later (exchange corrections supersede earlier
data), and is dropped otherwise. -/
def insertDedup (acc : List Bar) (b : Bar) : List Bar :=
  if acc.any (fun x => x.timestamp == b.timestamp) then
    acc.map (fun x => if x.timestamp == b.timestamp && x.seq < b.seq then b else x)
  else acc ++ [b]

/-- Modelled from the spec: step 1 of the Validator — deduplicate bars
with identical timestamp, keeping the later fetch-sequence bar. -/
def dedup (bars : List Bar) : List Bar :=
  bars.foldl insertDedup []

/-- Modelled from the spec: step 4 of the Validator — compare consecutive
timestamps; any gap larger than one interval is recorded as a gap-range
(the pair of bounding bar timestamps), never filled with bars. -/
def detectGaps (i : Nat) : List Bar → List (Nat × Nat)
  | [] => []
  | [_] => []
  | b1 :: b2 :: rest =>
    (if i < b2.timestamp - b1.timestamp then [(b1.timestamp, b2.timestamp)] else [])
      ++ detectGaps i (b2 :: rest)

/-- Modelled from the spec: insertion of one bar into a
timestamp-ordered list, used by step 5 of the Validator. -/
def insertByTs (b : Bar) : List Bar → List Bar
  | [] => [b]
  | x :: xs => if b.timestamp ≤ x.timestamp then b :: x :: xs else x :: insertByTs b xs

/-- Modelled from the spec: step 5 of the Validator — sort into ascending
timestamp order (insertion sort; deduplicated timestamps are distinct,
so ascending is strict). -/
def sortByTs : List Bar → List Bar
  | [] => []
  | b :: bs => insertByTs b (sortByTs bs)

/-- Modelled from the spec: the whole Validator/Normalizer pass (spec
section 4.4): dedup, discard misaligned bars, discard OHLC violators,
detect gaps, sort; output the cleaned bars and the gap-ranges. -/
def normalize (i : Nat) (raw : List Bar) : List Bar × List (Nat × Nat) :=
  let d := dedup raw
  let a := d.filter (alignedBar i)
  let v := a.filter validBar
  (sortByTs v, detectGaps i v)

/-- Membership is preserved by ordered insertion. -/
theorem mem_insertByTs (a b : Bar) (l : List Bar) :
    a ∈ insertByTs b l ↔ a = b ∨ a ∈ l := by
  induction l with
  | nil => simp [insertByTs]
  | cons x xs ih =>
    simp only [insertByTs]
    split
    · simp
    · simp [ih]
      tauto

/-- Membership is preserved by sorting. -/
theorem mem_sortByTs (a : Bar) (l : List Bar) : a ∈ sortByTs l ↔ a ∈ l := by
  induction l with
  | nil => simp [sortByTs]
  | cons x xs ih => simp [sortByTs, mem_insertByTs, ih]

/-- C2: every bar accepted (not discarded) by the Validator/Normalizer
satisfies `low ≤ min(open, close)`, `high ≥ max(open, close)`,
`volume ≥ 0`, and `timestamp mod interval_duration = 0`. -/
theorem C2_accepted_bars_valid (i : Nat) (raw : List Bar) (b : Bar)
    (hb : b ∈ (normalize i raw).1) :
    b.low ≤ min b.opn b.close ∧ max b.opn b.close ≤ b.high ∧
    0 ≤ b.volume ∧ b.timestamp % i = 0 := by
  have hb' : b ∈ ((dedup raw).filter (alignedBar i)).filter validBar := by
    simpa [normalize, mem_sortByTs] using hb
  rw [List.mem_filter] at hb'
  obtain ⟨hmem, hvalid⟩ := hb'
  rw [List.mem_filter] at hmem
  obtain ⟨-, haligned⟩ := hmem
  simp only [validBar, Bool.and_eq_true, decide_eq_true_eq] at hvalid
  simp only [alignedBar, beq_iff_eq] at haligned
  exact ⟨le_min hvalid.1.1.1.1.1 hvalid.1.1.1.1.2,
         max_le hvalid.1.1.1.2 hvalid.1.1.2, hvalid.2, haligned⟩

/-- A concrete well-formed hourly bar used by witnesses. -/
def witBar : Bar :=
  { exchange := "binance", symbol := "BTC/USDT", interval := "1h",
    timestamp := 7200, opn := 2, high := 3, low := 1, close := 2,
    volume := 5, seq := 0 }

/-- C2 (witness): `C2_accepted_bars_valid` at interval 3600 on the
one-bar input `[witBar]`. -/
theorem C2_accepted_bars_valid_witness :
    witBar ∈ (normalize 3600 [witBar]).1 ∧
    (witBar.low ≤ min witBar.opn witBar.close ∧
     max witBar.opn witBar.close ≤ witBar.high ∧
     0 ≤ witBar.volume ∧ witBar.timestamp % 3600 = 0) :=
  ⟨by decide, C2_accepted_bars_valid 3600 [witBar] witBar (by decide)⟩

/-- C5: for two input bars with identical timestamp and different
fetch-sequence numbers, deduplication keeps exactly the later-sequence
bar; the earlier bar never survives normalization; and the later bar
(when aligned and valid) is exactly what normalization returns. -/
theorem C5_dedup_keeps_later_seq (i : Nat) (b1 b2 : Bar)
    (hts : b1.timestamp = b2.timestamp) (hseq : b1.seq < b2.seq) :
    dedup [b1, b2] = [b2] ∧
    b1 ∉ (normalize i [b1, b2]).1 ∧
    (alignedBar i b2 = true → validBar b2 = true →
      normalize i [b1, b2] = ([b2], [])) := by
  have hne : b1 ≠ b2 := by
    intro h
    rw [h] at hseq
    exact lt_irrefl _ hseq
  have hd : dedup [b1, b2] = [b2] := by
    simp [dedup, insertDedup, hts, hseq]
  refine ⟨hd, ?_, fun ha hv => ?_⟩
  · intro hmem
    have : b1 ∈ (([b2].filter (alignedBar i)).filter validBar) := by
      simpa [normalize, hd, mem_sortByTs] using hmem
    rw [List.mem_filter, List.mem_filter] at this
    simp only [List.mem_singleton] at this
    exact hne this.1.1
  · simp [normalize, hd, ha, hv, sortByTs, insertByTs, detectGaps]

/-- The earlier-sequence duplicate of `witBar` used by the C5 witness. -/
def witBarEarly : Bar :=
  { exchange := "binance", symbol := "BTC/USDT", interval := "1h",
    timestamp := 7200, opn := 9, high := 9, low := 9, close := 9,
    volume := 9, seq := 0 }

/-- The later-sequence correction of `witBarEarly` used by the C5
witness. -/
def witBarLate : Bar :=
  { exchange := "binance", symbol := "BTC/USDT", interval := "1h",
    timestamp := 7200, opn := 2, high := 3, low := 1, close := 2,
    volume := 5, seq := 1 }

/-- C5 (witness): `C5_dedup_keeps_later_seq` at interval 3600 on the
concrete duplicate pair. -/
theorem C5_dedup_keeps_later_seq_witness :
    (witBarEarly.timestamp = witBarLate.timestamp ∧ witBarEarly.seq < witBarLate.seq) ∧
    (dedup [witBarEarly, witBarLate] = [witBarLate] ∧
     witBarEarly ∉ (normalize 3600 [witBarEarly, witBarLate]).1 ∧
     (alignedBar 3600 witBarLate = true → validBar witBarLate = true →
       normalize 3600 [witBarEarly, witBarLate] = ([witBarLate], []))) :=
  ⟨⟨by decide, by decide⟩,
   C5_dedup_keeps_later_seq 3600 witBarEarly witBarLate (by decide) (by decide)⟩

/-- C4: on input bars at timestamps `[T, T+i, T+3i]` (aligned and
valid), the Validator returns the input bars unchanged (no silent
filling) together with exactly one gap-range, `(T+i, T+3i)`; and the
aligned timestamps strictly inside that range are exactly the missing
slot `T+2i`. -/
theorem C4_gap_detection_exact (i T : Nat) (b0 b1 b3 : Bar)
    (hi : 0 < i) (hT : T % i = 0)
    (h0 : b0.timestamp = T) (h1 : b1.timestamp = T + i)
    (h3 : b3.timestamp = T + 3 * i)
    (v0 : validBar b0 = true) (v1 : validBar b1 = true)
    (v3 : validBar b3 = true) :
    normalize i [b0, b1, b3] = ([b0, b1, b3], [(T + i, T + 3 * i)]) ∧
    (∀ t, (T + i < t ∧ t < T + 3 * i ∧ t % i = 0) ↔ t = T + 2 * i) := by
  have ne01 : (b0.timestamp == b1.timestamp) = false := by
    simp only [h0, h1, beq_eq_false_iff_ne, ne_eq]
    omega
  have ne03 : (b0.timestamp == b3.timestamp) = false := by
    simp only [h0, h3, beq_eq_false_iff_ne, ne_eq]
    omega
  have ne13 : (b1.timestamp == b3.timestamp) = false := by
    simp only [h1, h3, beq_eq_false_iff_ne, ne_eq]
    omega
  have hd : dedup [b0, b1, b3] = [b0, b1, b3] := by
    simp [dedup, insertDedup, ne01, ne03, ne13]
  have a0 : alignedBar i b0 = true := by
    simp [alignedBar, h0, hT]
  have a1 : alignedBar i b1 = true := by
    simp [alignedBar, h1, Nat.add_mod_right, hT]
  have a3 : alignedBar i b3 = true := by
    simp [alignedBar, h3, Nat.add_mul_mod_self_right, hT]
  have hfa : ([b0, b1, b3].filter (alignedBar i)) = [b0, b1, b3] := by
    simp [List.filter, a0, a1, a3]
  have hfv : ([b0, b1, b3].filter validBar) = [b0, b1, b3] := by
    simp [List.filter, v0, v1, v3]
  have hsort : sortByTs [b0, b1, b3] = [b0, b1, b3] := by
    have s1 : b1.timestamp ≤ b3.timestamp := by omega
    have s0 : b0.timestamp ≤ b1.timestamp := by omega
    simp [sortByTs, insertByTs, s0, s1]
  have hgaps : detectGaps i [b0, b1, b3] = [(T + i, T + 3 * i)] := by
    simp only [detectGaps, h0, h1, h3]
    have g1 : ¬ i < T + i - T := by omega
    have g2 : i < T + 3 * i - (T + i) := by omega
    simp [g1, g2]
  constructor
  · simp only [normalize]
    rw [hd, hfa, hfv, hsort, hgaps]
  · intro t
    constructor
    · rintro ⟨hlt1, hlt2, hmod⟩
      obtain ⟨k, hk⟩ := Nat.dvd_of_mod_eq_zero hmod
      obtain ⟨q, hq⟩ := Nat.dvd_of_mod_eq_zero hT
      subst hk hq
      have e1 : i * (q + 1) < i * k := by
        rw [Nat.mul_add, Nat.mul_one]
        exact hlt1
      have e2 : i * k < i * (q + 3) := by
        have h2' := hlt2
        ring_nf at h2' ⊢
        linarith
      have k1 : q + 1 < k := Nat.lt_of_mul_lt_mul_left e1
      have k2 : k < q + 3 := Nat.lt_of_mul_lt_mul_left e2
      have : k = q + 2 := by omega
      subst this
      ring
    · rintro rfl
      refine ⟨by omega, by omega, ?_⟩
      simp [Nat.add_mul_mod_self_right, hT]

/-- Concrete hourly bars at timestamps 7200, 10800 and 18000 — the
14400 slot is missing — used by the C4 witness. -/
def gapBar0 : Bar :=
  { exchange := "binance", symbol := "BTC/USDT", interval := "1h",
    timestamp := 7200, opn := 2, high := 3, low := 1, close := 2,
    volume := 5, seq := 0 }

/-- Second bar of the C4 witness input (timestamp 10800). -/
def gapBar1 : Bar :=
  { exchange := "binance", symbol := "BTC/USDT", interval := "1h",
    timestamp := 10800, opn := 2, high := 3, low := 1, close := 2,
    volume := 5, seq := 0 }

/-- Fourth-slot bar of the C4 witness input (timestamp 18000). -/
def gapBar3 : Bar :=
  { exchange := "binance", symbol := "BTC/USDT", interval := "1h",
    timestamp := 18000, opn := 2, high := 3, low := 1, close := 2,
    volume := 5, seq := 0 }

/-- C4 (witness): `C4_gap_detection_exact` at interval 3600 and base
timestamp 7200 on the concrete three-bar input. -/
theorem C4_gap_detection_exact_witness :
    (0 < 3600 ∧ 7200 % 3600 = 0) ∧
    (normalize 3600 [gapBar0, gapBar1, gapBar3]
        = ([gapBar0, gapBar1, gapBar3], [(10800, 18000)]) ∧
     (∀ t, (10800 < t ∧ t < 18000 ∧ t % 3600 = 0) ↔ t = 14400)) :=
  ⟨⟨by decide, by decide⟩,
   C4_gap_detection_exact 3600 7200 gapBar0 gapBar1 gapBar3
     (by decide) (by decide) (by decide) (by decide) (by decide)
     (by decide) (by decide) (by decide)⟩

/-- Modelled from the spec: the persistence backend is a document store
addressable by (exchange, symbol, interval, timestamp) (spec sections
4.5 and 6): for each series key, a partial map from timestamps to
stored bars. -/
def Store : Type := SeriesKey → Nat → Option Bar

/-- Modelled from the spec: one keyed write — the bar overwrites
whatever is stored at its timestamp (upsert keyed by
exchange+symbol+interval+timestamp, spec section 4.5). -/
def putBar (f : Nat → Option Bar) (b : Bar) : Nat → Option Bar :=
  fun t => if t = b.timestamp then some b else f t

/-- Modelled from the spec: writing an ordered batch of bars into one
series, bar by bar. -/
def putBars (f : Nat → Option Bar) (bars : List Bar) : Nat → Option Bar :=
  bars.foldl putBar f

/-- Modelled from the spec: `StorageWriter.upsert(SeriesKey, bars)` —
idempotent upsert of the batch into the keyed store (spec section
4.5). -/
def upsert (s : Store) (k : SeriesKey) (bars : List Bar) : Store :=
  fun k' => if k' = k then putBars (s k) bars else s k'

/-- The last bar of `l` carrying timestamp `t`, if any: the value that a
sequence of keyed writes leaves at slot `t`. -/
def findLastAt : List Bar → Nat → Option Bar
  | [], _ => none
  | b :: bs, t =>
    match findLastAt bs t with
    | some r => some r
    | none => if t = b.timestamp then some b else none

/-- Lookup after a batch write: slot `t` holds the last written bar with
timestamp `t`, and is untouched when the batch has none. -/
theorem putBars_lookup (l : List Bar) (f : Nat → Option Bar) (t : Nat) :
    putBars f l t = match findLastAt l t with
                    | some r => some r
                    | none => f t := by
  induction l generalizing f with
  | nil => rfl
  | cons b bs ih =>
    show putBars (putBar f b) bs t = _
    rw [ih]
    cases hfind : findLastAt bs t with
    | some r => simp [findLastAt, hfind]
    | none =>
      simp only [findLastAt, hfind, putBar]
      split <;> rename_i hcond <;> simp [hcond]

/-- C3: `StorageWriter.upsert` is idempotent — for every series key and
ordered batch, upserting the same batch twice leaves the store in
exactly the state of a single upsert. -/
theorem C3_upsert_idempotent (s : Store) (k : SeriesKey) (bars : List Bar) :
    upsert (upsert s k bars) k bars = upsert s k bars := by
  funext k' t
  show (if k' = k then putBars (upsert s k bars k) bars else upsert s k bars k') t
      = (if k' = k then putBars (s k) bars else s k') t
  have hkk : upsert s k bars k = putBars (s k) bars := if_pos rfl
  by_cases hk : k' = k
  · rw [if_pos hk, if_pos hk, hkk]
    conv_lhs => rw [putBars_lookup]
    cases h : findLastAt bars t with
    | some r =>
      rw [putBars_lookup]
      simp [h]
    | none => simp
  · rw [if_neg hk, if_neg hk]
    show upsert s k bars k' t = s k' t
    rw [show upsert s k bars k' = s k' from if_neg hk]

/-- Modelled from the spec: one orchestrator step for a series (spec
sections 3, 4.2, 4.6 and 5).  The Scheduler dispatches the task for the
range starting at watermark + one interval, so only bars at or past
`watermark + i` are eligible; after the StorageWriter acknowledges the
ordered batch, the watermark becomes the timestamp of the last
acknowledged bar, and is left unchanged when nothing was acknowledged.
`none` is the `Uninitialized` state with no watermark on record. -/
def orchStep (i : Nat) (w : Option Nat) (batch : List Bar) : Option Nat :=
  let eligible := batch.filter (fun b =>
    match w with
    | none => true
    | some a => decide (a + i ≤ b.timestamp))
  match eligible.getLast? with
  | none => w
  | some b => some b.timestamp

/-- Modelled from the spec: an ingestion run (or several successive
runs) is a sequence of orchestrator steps, each persisting one batch
(spec sections 4.6 and 8). -/
def runOrch (i : Nat) (w : Option Nat) (batches : List (List Bar)) : Option Nat :=
  batches.foldl (orchStep i) w

/-- Watermark order: whenever the first watermark is recorded, the
second is recorded and not smaller. -/
def WmLE (w w' : Option Nat) : Prop :=
  ∀ a, w = some a → ∃ b, w' = some b ∧ a ≤ b

/-- One orchestrator step never decreases the watermark. -/
theorem orchStep_wmLE (i : Nat) (w : Option Nat) (batch : List Bar) :
    WmLE w (orchStep i w batch) := by
  intro a ha
  subst ha
  simp only [orchStep]
  cases hlast : (batch.filter (fun b => decide (a + i ≤ b.timestamp))).getLast? with
  | none => exact ⟨a, rfl, le_refl a⟩
  | some b =>
    refine ⟨b.timestamp, rfl, ?_⟩
    have hmem := List.mem_of_mem_getLast? hlast
    have := (List.mem_filter.mp hmem).2
    simp only [decide_eq_true_eq] at this
    omega

/-- A whole run of orchestrator steps never decreases the watermark. -/
theorem runOrch_wmLE (i : Nat) (w : Option Nat) (batches : List (List Bar)) :
    WmLE w (runOrch i w batches) := by
  induction batches generalizing w with
  | nil => exact fun a ha => ⟨a, ha, le_refl a⟩
  | cons batch rest ih =>
    intro a ha
    obtain ⟨b, hb, hab⟩ := orchStep_wmLE i w batch a ha
    obtain ⟨c, hc, hbc⟩ := ih (orchStep i w batch) b hb
    exact ⟨c, hc, le_trans hab hbc⟩

/-- C6: the persisted watermark of a series is monotone — it never
decreases across a single orchestrator step, nor across any sequence of
steps and successive ingestion runs. -/
theorem C6_watermark_monotone :
    (∀ i w batch, WmLE w (orchStep i w batch)) ∧
    (∀ i w batches, WmLE w (runOrch i w batches)) :=
  ⟨orchStep_wmLE, runOrch_wmLE⟩

/-- C6 (witness): `C6_watermark_monotone` on a concrete run — watermark
7200, interval 3600, one batch containing the 10800 bar. -/
theorem C6_watermark_monotone_witness :
    ∃ b, runOrch 3600 (some 7200) [[gapBar1]] = some b ∧ 7200 ≤ b :=
  C6_watermark_monotone.2 3600 (some 7200) [[gapBar1]] 7200 rfl

/-- Modelled from the spec: the number of bars of a batch that persist
before the failure point — the whole batch when no write fails, and the
bars strictly before index `j` when the write of bar `j` fails (spec
section 4.5). -/
def ackCount (bars : List Bar) (failAt : Option Nat) : Nat :=
  match failAt with
  | none => bars.length
  | some j => min j bars.length

/-- Modelled from the spec: a StorageWriter batch write with an optional
failure point: the contiguous prefix before the failure is persisted
into the store and acknowledged; the failing bar and everything after it
are neither persisted nor acknowledged (spec section 4.5). -/
def writeBatch (store : Nat → Option Bar) (bars : List Bar)
    (failAt : Option Nat) : (Nat → Option Bar) × List Bar :=
  (putBars store (bars.take (ackCount bars failAt)),
   bars.take (ackCount bars failAt))

/-- Modelled from the spec: the Orchestrator advances the watermark to
the last acknowledged bar, and leaves it unchanged when nothing was
acknowledged (spec sections 3 and 4.5). -/
def advanceWatermark (w : Option Nat) (acked : List Bar) : Option Nat :=
  match acked.getLast? with
  | none => w
  | some b => some b.timestamp

/-- `findLastAt` misses every timestamp the list does not carry. -/
theorem findLastAt_eq_none (l : List Bar) (t : Nat)
    (h : ∀ b ∈ l, t ≠ b.timestamp) : findLastAt l t = none := by
  induction l with
  | nil => rfl
  | cons x xs ih =>
    show (match findLastAt xs t with
          | some r => some r
          | none => if t = x.timestamp then some x else none) = none
    rw [ih (fun b hb => h b (List.mem_cons_of_mem x hb))]
    simp [h x (List.mem_cons_self x xs)]

/-- In a strictly-ascending list `findLastAt` returns exactly the member
carrying the looked-up timestamp. -/
theorem findLastAt_mem_asc (l : List Bar)
    (hasc : l.Pairwise (fun x y => x.timestamp < y.timestamp))
    (b : Bar) (hmem : b ∈ l) : findLastAt l b.timestamp = some b := by
  induction l with
  | nil => cases hmem
  | cons x xs ih =>
    rw [List.pairwise_cons] at hasc
    show (match findLastAt xs b.timestamp with
          | some r => some r
          | none => if b.timestamp = x.timestamp then some x else none) = some b
    rcases List.mem_cons.mp hmem with rfl | hmem'
    · rw [findLastAt_eq_none xs b.timestamp
        (fun y hy => Nat.ne_of_lt (hasc.1 y hy))]
      simp
    · rw [ih hasc.2 hmem']

/-- Every bar of the first `k` positions of a strictly-ascending list
has a strictly smaller timestamp than the bar at a position at or past
`k`. -/
theorem ts_lt_of_mem_take (bars : List Bar) (k j : Nat) (hj : j < bars.length)
    (hasc : bars.Pairwise (fun x y => x.timestamp < y.timestamp))
    (hkj : k ≤ j) (b : Bar) (hb : b ∈ bars.take k) :
    b.timestamp < (bars.get ⟨j, hj⟩).timestamp := by
  obtain ⟨⟨m, hm⟩, hget⟩ := List.mem_iff_get.mp hb
  rw [List.length_take] at hm
  have hmk : m < k := lt_of_lt_of_le hm (min_le_left _ _)
  have hmlen : m < bars.length := lt_of_lt_of_le hm (min_le_right _ _)
  have hgb : bars.get ⟨m, hmlen⟩ = b := by
    rw [← hget]
    simp only [List.get_eq_getElem, List.getElem_take]
  have hlt := List.pairwise_iff_get.mp hasc ⟨m, hmlen⟩ ⟨j, hj⟩
    (show m < j from lt_of_lt_of_le hmk hkj)
  rw [hgb] at hlt
  exact hlt

/-- C7: StorageWriter batch atomicity.  For every batch write (strictly
ascending batch, dispatched past the current watermark): the
acknowledgment is exactly the contiguous prefix before the failure
point; every acknowledged bar is persisted; no bar at or past the
failure point is persisted (its slot is untouched); and the advanced
watermark never reaches the timestamp of any unpersisted bar. -/
theorem C7_batch_atomicity (store : Nat → Option Bar) (bars : List Bar)
    (failAt : Option Nat) (w : Option Nat)
    (hasc : bars.Pairwise (fun x y => x.timestamp < y.timestamp))
    (hdisp : ∀ b ∈ bars, ∀ a, w = some a → a < b.timestamp) :
    (writeBatch store bars failAt).2 = bars.take (ackCount bars failAt) ∧
    (∀ b ∈ bars.take (ackCount bars failAt),
        (writeBatch store bars failAt).1 b.timestamp = some b) ∧
    (∀ j, ∀ hj : j < bars.length, ackCount bars failAt ≤ j →
        (writeBatch store bars failAt).1 (bars.get ⟨j, hj⟩).timestamp
          = store (bars.get ⟨j, hj⟩).timestamp) ∧
    (∀ j, ∀ hj : j < bars.length, ackCount bars failAt ≤ j → ∀ a,
        advanceWatermark w (writeBatch store bars failAt).2 = some a →
        a < (bars.get ⟨j, hj⟩).timestamp) := by
  have hasc_take : (bars.take (ackCount bars failAt)).Pairwise
      (fun x y => x.timestamp < y.timestamp) :=
    List.Pairwise.sublist (List.take_sublist _ _) hasc
  refine ⟨rfl, fun b hb => ?_, fun j hj hkj => ?_, fun j hj hkj a ha => ?_⟩
  · show putBars store (bars.take (ackCount bars failAt)) b.timestamp = some b
    rw [putBars_lookup, findLastAt_mem_asc _ hasc_take b hb]
  · show putBars store (bars.take (ackCount bars failAt))
        (bars.get ⟨j, hj⟩).timestamp = _
    rw [putBars_lookup, findLastAt_eq_none]
    intro b hb
    exact Nat.ne_of_gt (ts_lt_of_mem_take bars _ j hj hasc hkj b hb)
  · revert ha
    show advanceWatermark w (bars.take (ackCount bars failAt)) = some a → _
    rw [advanceWatermark]
    cases hlast : (bars.take (ackCount bars failAt)).getLast? with
    | none =>
      intro ha
      exact hdisp _ (bars.get_mem _ _) a ha
    | some lastb =>
      intro ha
      obtain rfl : lastb.timestamp = a := Option.some.inj ha
      exact ts_lt_of_mem_take bars _ j hj hasc hkj lastb
        (List.mem_of_mem_getLast? hlast)

/-- C7 (witness): `C7_batch_atomicity` on the concrete two-bar batch
`[gapBar0, gapBar1]` failing at index 1, dispatched at watermark
3600: the 7200 bar is acknowledged and persisted, the 10800 slot is
untouched, and the advanced watermark 7200 stays below 10800. -/
theorem C7_batch_atomicity_witness :
    (writeBatch (fun _ => none) [gapBar0, gapBar1] (some 1)).2 = [gapBar0] ∧
    (writeBatch (fun _ => none) [gapBar0, gapBar1] (some 1)).1
        gapBar0.timestamp = some gapBar0 ∧
    (writeBatch (fun _ => none) [gapBar0, gapBar1] (some 1)).1
        gapBar1.timestamp = none ∧
    7200 < ([gapBar0, gapBar1].get ⟨1, by decide⟩).timestamp := by
  have h := C7_batch_atomicity (fun _ => none) [gapBar0, gapBar1]
    (some 1) (some 3600)
    (by simp [List.pairwise_cons]; decide)
    (by
      intro b hb a ha
      obtain rfl : (3600 : Nat) = a := Option.some.inj ha
      simp only [List.mem_cons, List.mem_singleton] at hb
      rcases hb with rfl | rfl | hb
      · decide
      · decide
      · cases hb)
  refine ⟨?_, ?_, ?_, ?_⟩
  · exact h.1
  · exact h.2.1 gapBar0 (by decide)
  · have := h.2.2.1 1 (by decide) (by decide)
    simpa using this
  · exact h.2.2.2 1 (by decide) (by decide) 7200 (by decide)

/-- Modelled from the spec: the adapter/storage error taxonomy (spec
section 7). -/
inductive ErrorKind
  | RateLimitExceeded
  | TransientNetworkError
  | SymbolNotFound
  | AuthenticationError
  | StorageUnavailable
  | ConstraintViolation
deriving DecidableEq, Repr

/-- Modelled from the spec: transient kinds (`RateLimitExceeded`,
`TransientNetworkError`, `StorageUnavailable`) are retried; the
remaining kinds are non-retryable (spec section 7). -/
def retryable : ErrorKind → Bool
  | .RateLimitExceeded => true
  | .TransientNetworkError => true
  | .StorageUnavailable => true
  | .SymbolNotFound => false
  | .AuthenticationError => false
  | .ConstraintViolation => false

/-- Modelled from the spec: the outcome of one fetch task (spec
section 3, `IngestionResult`). -/
inductive TaskOutcome
  | success (bars : List Bar)
  | failure (e : ErrorKind)

/-- Modelled from the spec: the per-series status relevant to the retry
policy — `Steady` after a task succeeds, `Degraded` with the last error
kind otherwise (spec section 4.6). -/
inductive SeriesStatus
  | Steady
  | Degraded (e : ErrorKind)
deriving DecidableEq, Repr

/-- Modelled from the spec: the per-series retry loop (spec section 7).
`adapter n` is the outcome of the `n`-th attempt and `fuel` the number
of retries still permitted.  A success yields `Steady`; a transient
error consumes one retry (degrading when the budget is exhausted); a
non-retryable error degrades the series immediately.  The second
component counts the attempts made. -/
def runFrom (adapter : Nat → TaskOutcome) (fuel n : Nat) :
    SeriesStatus × Nat :=
  match adapter n with
  | .success _ => (.Steady, n + 1)
  | .failure e =>
    if retryable e then
      match fuel with
      | 0 => (.Degraded e, n + 1)
      | fuel' + 1 => runFrom adapter fuel' (n + 1)
    else (.Degraded e, n + 1)
termination_by fuel

/-- Modelled from the spec: one whole ingestion run for a series with a
configured retry ceiling. -/
def runSeries (adapter : Nat → TaskOutcome) (retryCeiling : Nat) :
    SeriesStatus × Nat :=
  runFrom adapter retryCeiling 0

/-- C8: whenever the first attempt of a series fails with a
non-retryable error kind, the series enters `Degraded` with that kind
after exactly one attempt — no retry happens within the run, whatever
the retry ceiling; and the non-retryable kinds include exactly
`SymbolNotFound`, `AuthenticationError` and `ConstraintViolation`. -/
theorem C8_nonretryable_degrades_immediately (adapter : Nat → TaskOutcome)
    (lim : Nat) (e : ErrorKind)
    (hnr : retryable e = false) (h0 : adapter 0 = .failure e) :
    runSeries adapter lim = (.Degraded e, 1) ∧
    retryable .SymbolNotFound = false ∧
    retryable .AuthenticationError = false ∧
    retryable .ConstraintViolation = false := by
  refine ⟨?_, rfl, rfl, rfl⟩
  simp [runSeries, runFrom, h0, hnr]

/-- Modelled from the spec: an adapter whose credentials are rejected on
every call (spec section 8, failure scenario). -/
def authFailAdapter : Nat → TaskOutcome :=
  fun _ => .failure .AuthenticationError

/-- C8 (witness): `C8_nonretryable_degrades_immediately` on the adapter
that always returns `AuthenticationError`, with retry ceiling 5. -/
theorem C8_nonretryable_degrades_immediately_witness :
    retryable .AuthenticationError = false ∧
    runSeries authFailAdapter 5 = (.Degraded .AuthenticationError, 1) :=
  ⟨by decide,
   (C8_nonretryable_degrades_immediately authFailAdapter 5
      .AuthenticationError (by decide) rfl).1⟩

end TradingRepo
